import Mathlib

/-!
# Verification of the canvas-event-broker specification

Shallow embedding of the reconciliation-relevant parts of the
canvas-event-broker repository: the person-sync event handler
(`src/event-handlers/SyncPerson.js`), the reconcile-enrollment websocket
action, the course-name template engine, and — modelled from the spec where
the source is not available — the reconciliation diff and the event
dispatcher.

External collaborator calls (Banner lookups, Canvas API calls, queue
deletion) are async I/O in the source; here their outcomes are passed in as
explicit `Except` values and the handler's observable behaviour is the list
of operations it performs plus its final result.
-/

namespace CanvasEventBroker

/-- Error values carried by failed collaborator calls. -/
abbrev Error := String

/-- A Banner person record, as consumed by the person-sync handler
(`BannerOperations.getPerson` result). -/
structure Person where
  campusId : String
  firstName : String
  lastName : String
  email : String
  deriving DecidableEq, Repr

/-- An inbound Banner change event as read from the durable queue
(payload for a person sync is the `pidm`). -/
structure BannerEvent where
  pidm : Nat
  deriving DecidableEq, Repr

/-- Observable operations performed by the person-sync handler:
the Banner lookup, the Canvas user sync, the error log, and the
queue deletion. -/
inductive SyncOp where
  | getPerson (pidm : Nat)
  | syncUser (campusId firstName lastName email : String)
  | logError
  | deleteEvent (event : BannerEvent)
  deriving DecidableEq, Repr

/-- Embedding of `src/event-handlers/SyncPerson.js` (`module.exports`).
The source is
`try { person = await getPerson(pidm); await syncUser(...) } catch (e) { log }
 finally { await deleteEvent(event) }`.
Arguments `gp`, `su`, `de` are the outcomes of the three awaited collaborator
calls (`su` depends on the person that `getPerson` returned). Returns the
operation trace in execution order and the handler's final outcome: an error
in the try block is caught and logged, so only a failing `deleteEvent` in the
finally block can reject the handler. -/
def syncPersonHandler (gp : Except Error Person) (su : Person → Except Error Unit)
    (de : Except Error Unit) (event : BannerEvent) : List SyncOp × Except Error Unit :=
  let tryOps : List SyncOp :=
    match gp with
    | .error _ => [SyncOp.getPerson event.pidm, SyncOp.logError]
    | .ok p =>
      match su p with
      | .error _ => [SyncOp.getPerson event.pidm,
          SyncOp.syncUser p.campusId p.firstName p.lastName p.email, SyncOp.logError]
      | .ok _ => [SyncOp.getPerson event.pidm,
          SyncOp.syncUser p.campusId p.firstName p.lastName p.email]
  (tryOps ++ [SyncOp.deleteEvent event],
   match de with
   | .error e => .error e
   | .ok _ => .ok ())

/-- The per-event work of the person-sync handler failed: either the Banner
person lookup threw, or the Canvas user sync threw. -/
def workFails (gp : Except Error Person) (su : Person → Except Error Unit) : Prop :=
  (∃ e, gp = .error e) ∨ (∃ p e, gp = .ok p ∧ su p = .error e)

/-! ## Enrollment reconciliation (spec §4.1)

The ReconciliationEngine source (`college.reconcileEnrollment`) is not among
the provided files — only its websocket caller is — so the diff is modelled
from the spec. -/

/-- An enrollment key: the spec's ternary relation, "the symmetric difference
keyed by (person, section, role)". -/
structure EnrollKey where
  pidm : Nat
  crn : Nat
  role : String
  deriving DecidableEq, Repr

/-- A corrective action emitted by the reconciliation diff. -/
inductive EnrollAction where
  | add (k : EnrollKey)
  | remove (k : EnrollKey)
  deriving DecidableEq, Repr

/-- Modelled from the spec: the ReconciliationEngine's diff (§4.1 step 3) is
not among the provided sources. "Compute the symmetric difference keyed by
(person, section, role): present in source, absent in target → add action;
present in target, absent in source → remove action", with duplicate records
for the same key collapsed to one canonical action (deterministically), and
actions emitted in a fixed stable order: all adds, then all removes. With the
key being the full (person, section, role) triple, a role change appears as
one add plus one remove, so the update-role branch of step 3 has no
inhabitants of its own here. -/
def computeDiff (source target : List EnrollKey) : List EnrollAction :=
  (source.dedup.filter (fun k => decide (k ∉ target))).map EnrollAction.add ++
  (target.dedup.filter (fun k => decide (k ∉ source))).map EnrollAction.remove

/-- Modelled from the spec: applying one corrective action to the target
roster. An add is idempotent (inserting an enrollment already present is a
no-op); a remove erases every copy of the key. -/
def applyAction (roster : List EnrollKey) : EnrollAction → List EnrollKey
  | .add k => if k ∈ roster then roster else k :: roster
  | .remove k => roster.filter (fun x => decide (x ≠ k))

/-- Modelled from the spec: §4.1 step 4 applies the diff's actions to the
target roster in the order the diff produced them. -/
def applyActions (actions : List EnrollAction) (roster : List EnrollKey) : List EnrollKey :=
  actions.foldl applyAction roster

/-- The report returned to the caller of a reconciliation run:
`{ added, removed, updated, errors }` per spec §6. -/
structure ReconciliationReport where
  added : List EnrollKey
  removed : List EnrollKey
  updated : List EnrollKey
  errors : List (EnrollAction × Error)
  deriving DecidableEq, Repr

/-- Modelled from the spec: one reconciliation run over fixed source/target
snapshots (§4.1 steps 3-5): compute the diff, apply the actions in diff
order, return the report and the resulting target roster. -/
def reconcileRun (source target : List EnrollKey) :
    ReconciliationReport × List EnrollKey :=
  let actions := computeDiff source target
  ({ added := actions.filterMap fun a =>
        match a with | .add k => some k | .remove _ => none,
     removed := actions.filterMap fun a =>
        match a with | .remove k => some k | .add _ => none,
     updated := [],
     errors := [] },
   applyActions actions target)

/-! ## The reconcile-enrollment websocket action -/

/-- A response delivered to the websocket client that triggered a
reconciliation run. -/
inductive WsResponse where
  | report (r : ReconciliationReport)
  | fatalError (message : String)
  deriving DecidableEq, Repr

/-- Message produced by `WebsocketUtils.handleAsyncError` for a failed run
(modelled from the spec: `WebsocketUtils` is not among the provided sources;
per §7 a rejected run surfaces its fatal error to the caller). -/
def fatalMessage (e : Error) : String :=
  "A serious error occurred while attempting to reconcile enrollment: " ++ e

/-- Embedding of the `reconcile-enrollment` websocket action
(`module.exports` of the action file). The college lookup
`CollegeManager[data.college]` may miss (`none`); `college.reconcileEnrollment()`
is awaited inside the try, so both a missing college (a TypeError on the call)
and a fatally failed run land in the catch, which responds through
`WebsocketUtils.handleAsyncError`; a completed run responds with its report.
The returned list is the sequence of responses sent to the caller. -/
def reconcileEnrollmentAction
    (college : Option (Except Error ReconciliationReport)) : List WsResponse :=
  match college with
  | none => [WsResponse.fatalError (fatalMessage "TypeError: college is undefined")]
  | some (.ok report) => [WsResponse.report report]
  | some (.error e) => [WsResponse.fatalError (fatalMessage e)]

/-! ## The event dispatcher (spec §4.2) -/

/-- Observable operations of the event dispatcher: calls into the
source/target system clients made by a handler, the validation-error report
for an unknown event type, and the queue deletion. -/
inductive DispatchOp where
  | clientCall (description : String)
  | logValidationError (eventType : String)
  | deleteEvent
  deriving DecidableEq, Repr

/-- An inbound event as read from the durable queue: `{ type, payload }`. -/
structure InboundEvent where
  type : String
  payload : Nat
  deriving DecidableEq, Repr

/-- Modelled from the spec: the EventDispatcher (§4.2) is not among the
provided sources. It resolves the registered handler by the event's declared
type; a resolved handler runs and the queue entry is deleted afterwards in a
guaranteed finalizer; an unknown event type is reported as a ValidationError
handling error and the queue entry is still deleted, with no handler (hence
no client call) run. -/
def dispatchEvent (registry : String → Option (Nat → List DispatchOp))
    (ev : InboundEvent) : List DispatchOp :=
  match registry ev.type with
  | some handler => handler ev.payload ++ [DispatchOp.deleteEvent]
  | none => [DispatchOp.logValidationError ev.type, DispatchOp.deleteEvent]

/-! ## The course-name template engine

Embedding of the CourseNameHelper module: `executeTemplate`,
`generateCourseName` and the substitution function library `fnLibrary`.
The Banner lookups that build the template context are async collaborator
calls; their results are passed in as the context. `Common.sanitizeSubjectCode`
and `Case.capital` come from files not provided here, so they are taken as
opaque function parameters. -/

/-- A Banner course section as returned by
`BannerOperations.getCourseSection` (term, CRN, and the section number the
display ordering is keyed on). -/
structure CourseSection where
  term : String
  crn : String
  sectionNumber : Nat
  deriving DecidableEq, Repr

/-- A Banner course record as returned by `BannerOperations.getCourse`. -/
structure Course where
  subjectCode : String
  courseNumber : String
  title : String
  deriving DecidableEq, Repr

/-- The data context assembled by `generateCourseName` /
`generateCourseCode` and passed to each substitution function. -/
structure TemplateContext where
  instructors : List Person
  parentCourse : Course
  parentTerm : String
  parentCrn : String
  sections : List CourseSection
  deriving DecidableEq, Repr

/-- The ordering used by `Common.compareBySectionNumber` (modelled from the
spec: `Common.js` is not among the provided sources; per §3, "Ordering is by
section number for deterministic display/substitution"). -/
def bySectionNumber (a b : CourseSection) : Prop :=
  a.sectionNumber ≤ b.sectionNumber

instance : DecidableRel bySectionNumber := fun a b =>
  Nat.decLe a.sectionNumber b.sectionNumber

instance : IsTotal CourseSection bySectionNumber :=
  ⟨fun a b => Nat.le_total a.sectionNumber b.sectionNumber⟩

instance : IsTrans CourseSection bySectionNumber :=
  ⟨fun _ _ _ => Nat.le_trans⟩

/-- `context.sections.sort(Common.compareBySectionNumber)`: a deterministic
sort of the section list by section number. -/
def sortBySectionNumber (l : List CourseSection) : List CourseSection :=
  l.insertionSort bySectionNumber

namespace fnLibrary

/-- `fnLibrary.allCrns`: sort the context's sections by section number, map
to CRNs, join with ", ". -/
def allCrns (ctx : TemplateContext) : Option String :=
  some (String.intercalate ", " ((sortBySectionNumber ctx.sections).map (·.crn)))

/-- `fnLibrary.instLastName`: reads `context.instructors[0].lastName`; on an
empty instructor list the element access fails (a thrown TypeError in the
source), modelled as `none`. -/
def instLastName (ctx : TemplateContext) : Option String :=
  ctx.instructors.head?.map (·.lastName)

/-- `fnLibrary.parentCourseNum` (with `Common.sanitizeSubjectCode` opaque). -/
def parentCourseNum (sanitize : String → String) (ctx : TemplateContext) :
    Option String :=
  some (sanitize ctx.parentCourse.courseNumber)

/-- `fnLibrary.parentCrn`. -/
def parentCrn (ctx : TemplateContext) : Option String :=
  some ctx.parentCrn

/-- `fnLibrary.parentSubj` (with `Common.sanitizeSubjectCode` opaque). -/
def parentSubj (sanitize : String → String) (ctx : TemplateContext) :
    Option String :=
  some (sanitize ctx.parentCourse.subjectCode)

/-- `fnLibrary.parentTitle` (with `Case.capital` opaque). -/
def parentTitle (capital : String → String) (ctx : TemplateContext) :
    Option String :=
  some (capital ctx.parentCourse.title)

/-- `fnLibrary.parentTitleUpper`. -/
def parentTitleUpper (ctx : TemplateContext) : Option String :=
  some ctx.parentCourse.title.toUpper

/-- `fnLibrary.sections`: sort the context's sections by section number, map
to section numbers, join with ", ". -/
def sections (ctx : TemplateContext) : Option String :=
  some (String.intercalate ", "
    ((sortBySectionNumber ctx.sections).map (fun s => toString s.sectionNumber)))

/-- `fnLibrary.termAbbrev`: parse the 4-digit year off the front of the term
code and pick the season by its fifth character; term codes whose first four
characters are not a number, or whose fifth character is not 1-4, produce no
substitution value. -/
def termAbbrev (ctx : TemplateContext) : Option String :=
  match (String.mk (ctx.parentTerm.data.take 4)).toNat? with
  | none => none
  | some year =>
    let twoDigits := fun (y : Nat) => String.mk (((toString y).data.drop 2).take 2)
    match (ctx.parentTerm.data.drop 4).head? with
    | some '1' => some ("Su" ++ twoDigits (year - 1))
    | some '2' => some ("F" ++ twoDigits (year - 1))
    | some '3' => some ("W" ++ twoDigits year)
    | some '4' => some ("Sp" ++ twoDigits year)
    | _ => none

end fnLibrary

/-- The `fnLibrary` object of the source module as a lookup from token name
to substitution function: `some f` exactly for the nine defined members
(mirroring the `typeof fnLibrary[varName] === 'function'` test), `none` for
every other name. -/
def fnLibraryLookup (sanitize capital : String → String) :
    String → Option (TemplateContext → Option String)
  | "allCrns" => some fnLibrary.allCrns
  | "instLastName" => some fnLibrary.instLastName
  | "parentCourseNum" => some (fnLibrary.parentCourseNum sanitize)
  | "parentCrn" => some fnLibrary.parentCrn
  | "parentSubj" => some (fnLibrary.parentSubj sanitize)
  | "parentTitle" => some (fnLibrary.parentTitle capital)
  | "parentTitleUpper" => some fnLibrary.parentTitleUpper
  | "sections" => some fnLibrary.sections
  | "termAbbrev" => some fnLibrary.termAbbrev
  | _ => none

/-- One pass of `StringReplaceAsync(template, /[\x5B]([A-Za-z]+)[\x5D]+/g, ...)`
as used by `executeTemplate`: scan left to right; at each `[` followed by one
or more ASCII letters and then one or more `]` (both greedy), look the name up
in the library — `none` means not a library function, so the whole match is
kept verbatim; `some none` means the substitution function failed, rejecting
the entire execution; `some (some r)` replaces the match by `r`. Characters
outside matches pass through unchanged. `fuel` bounds the recursion and is
ample whenever it is at least the input length, since every step consumes at
least one character. -/
def scanAux (lib : String → Option (Option String)) :
    Nat → List Char → Option (List Char)
  | _, [] => some []
  | 0, _ :: _ => none
  | fuel + 1, c :: rest =>
    if c = '[' then
      let letters := rest.takeWhile Char.isAlpha
      let rest₂ := rest.dropWhile Char.isAlpha
      let brackets := rest₂.takeWhile (fun b => b = ']')
      let rest₃ := rest₂.dropWhile (fun b => b = ']')
      if letters = [] ∨ brackets = [] then
        (scanAux lib fuel rest).map (fun s => c :: s)
      else
        match lib (String.mk letters) with
        | none => (scanAux lib fuel rest₃).map (fun s => c :: letters ++ brackets ++ s)
        | some none => none
        | some (some r) => (scanAux lib fuel rest₃).map (fun s => r.data ++ s)
    else
      (scanAux lib fuel rest).map (fun s => c :: s)

/-- The template scan at its natural fuel. -/
def scanTemplate (lib : String → Option (Option String)) (l : List Char) :
    Option (List Char) :=
  scanAux lib l.length l

/-- Embedding of `executeTemplate(context, template)`: run the replacement
scan with the source's `fnLibrary`, resolved against the fixed context. -/
def executeTemplate (sanitize capital : String → String)
    (ctx : TemplateContext) (template : String) : Option String :=
  (scanTemplate
    (fun n => (fnLibraryLookup sanitize capital n).map (fun f => f ctx))
    template.data).map String.mk

/-- Embedding of `generateCourseName(parentTerm, parentCrn, sections, template)`:
the context fields are the results of the awaited Banner lookups
(`getInstructors`, `getCourse`, `getCourseSection` per section), passed in
explicitly; the template is then executed over that context. -/
def generateCourseName (sanitize capital : String → String)
    (instructors : List Person) (parentCourse : Course)
    (parentTerm parentCrn : String) (sections : List CourseSection)
    (template : String) : Option String :=
  executeTemplate sanitize capital
    { instructors := instructors, parentCourse := parentCourse,
      parentTerm := parentTerm, parentCrn := parentCrn, sections := sections }
    template

/-- A concrete course record for evaluating the embedding. -/
def demoCourse : Course :=
  ⟨"CIS", "22A", "intro to programming"⟩

/-- A concrete template context (no instructors, no sections) for evaluating
the embedding. -/
def demoContext : TemplateContext :=
  ⟨[], demoCourse, "202541", "12345", []⟩

end CanvasEventBroker

namespace CanvasEventBroker

/-- C1: for every inbound person-sync event, on every outcome of the Banner
lookup, the Canvas sync and the queue deletion, the handler's trace deletes
the event from the durable queue exactly once, and that deletion is the last
operation of the trace — strictly after all of the handler's work, whether
the work succeeded or failed. -/
theorem syncPerson_deletes_once_after_work
    (gp : Except Error Person) (su : Person → Except Error Unit)
    (de : Except Error Unit) (event : BannerEvent) :
    (syncPersonHandler gp su de event).1.count (SyncOp.deleteEvent event) = 1 ∧
    ∃ work, (syncPersonHandler gp su de event).1 = work ++ [SyncOp.deleteEvent event] ∧
      ∀ e, SyncOp.deleteEvent e ∉ work := by
  cases gp with
  | error e =>
    refine ⟨by simp [syncPersonHandler], ?_⟩
    exact ⟨[SyncOp.getPerson event.pidm, SyncOp.logError], by simp [syncPersonHandler]⟩
  | ok p =>
    cases hsu : su p with
    | error e =>
      refine ⟨by simp [syncPersonHandler, hsu], ?_⟩
      exact ⟨[SyncOp.getPerson event.pidm,
        SyncOp.syncUser p.campusId p.firstName p.lastName p.email, SyncOp.logError],
        by simp [syncPersonHandler, hsu]⟩
    | ok u =>
      refine ⟨by simp [syncPersonHandler, hsu], ?_⟩
      exact ⟨[SyncOp.getPerson event.pidm,
        SyncOp.syncUser p.campusId p.firstName p.lastName p.email],
        by simp [syncPersonHandler, hsu]⟩

/-- C4: when the per-event work of the person-sync handler fails (the Banner
person lookup or the Canvas sync call throws), the handler catches the error,
logs it, and completes normally (queue deletion succeeding): the failure does
not propagate past the handler boundary. -/
theorem syncPerson_isolates_work_failure
    (gp : Except Error Person) (su : Person → Except Error Unit)
    (event : BannerEvent) (h : workFails gp su) :
    (syncPersonHandler gp su (.ok ()) event).2 = .ok () ∧
    SyncOp.logError ∈ (syncPersonHandler gp su (.ok ()) event).1 := by
  refine ⟨by simp [syncPersonHandler], ?_⟩
  rcases h with ⟨e, hgp⟩ | ⟨p, e, hgp, hsu⟩
  · subst hgp; simp [syncPersonHandler]
  · subst hgp; simp [syncPersonHandler, hsu]

/-- Witness for C4 at a concrete failing lookup. -/
theorem syncPerson_isolates_work_failure_witness :
    (syncPersonHandler (.error "network timeout") (fun _ => .ok ()) (.ok ()) ⟨12345⟩).2
        = .ok () ∧
    SyncOp.logError ∈ (syncPersonHandler (.error "network timeout")
        (fun _ => .ok ()) (.ok ()) ⟨12345⟩).1 :=
  syncPerson_isolates_work_failure (.error "network timeout") (fun _ => .ok ())
    ⟨12345⟩ (Or.inl ⟨"network timeout", rfl⟩)

/-- C5: every invocation of the reconcile-enrollment trigger sends the caller
exactly one response — the complete report when the run completes, and an
error response when the run fails fatally (including a failed college
lookup); the trigger never returns silently with neither. -/
theorem reconcileAction_exactly_one_response
    (college : Option (Except Error ReconciliationReport)) :
    (reconcileEnrollmentAction college).length = 1 ∧
    reconcileEnrollmentAction college =
      match college with
      | none => [WsResponse.fatalError (fatalMessage "TypeError: college is undefined")]
      | some (.ok report) => [WsResponse.report report]
      | some (.error e) => [WsResponse.fatalError (fatalMessage e)] := by
  rcases college with _ | (e | report) <;> simp [reconcileEnrollmentAction]

/-- C7: an inbound event whose declared type has no registered handler is
reported as a validation handling error, its queue entry is still deleted
exactly once, and no source- or target-system client call is made for it. -/
theorem dispatch_unknown_type
    (registry : String → Option (Nat → List DispatchOp)) (ev : InboundEvent)
    (h : registry ev.type = none) :
    DispatchOp.logValidationError ev.type ∈ dispatchEvent registry ev ∧
    (dispatchEvent registry ev).count DispatchOp.deleteEvent = 1 ∧
    ∀ d, DispatchOp.clientCall d ∉ dispatchEvent registry ev := by
  simp [dispatchEvent, h]

/-- Witness for C7: the unknown event type "bogus" against an empty handler
registry. -/
theorem dispatch_unknown_type_witness :
    DispatchOp.logValidationError "bogus" ∈
        dispatchEvent (fun _ => none) ⟨"bogus", 0⟩ ∧
    (dispatchEvent (fun _ => none) ⟨"bogus", 0⟩).count DispatchOp.deleteEvent = 1 ∧
    ∀ d, DispatchOp.clientCall d ∉ dispatchEvent (fun _ => none) ⟨"bogus", 0⟩ :=
  dispatch_unknown_type (fun _ => none) ⟨"bogus", 0⟩ rfl

/-- How often a key survives dedup-then-filter: once when it is in the list
and passes the filter, never otherwise. -/
theorem count_filter_dedup (l : List EnrollKey) (p : EnrollKey → Bool)
    (k : EnrollKey) :
    ((l.dedup.filter p).count k) = if k ∈ l ∧ p k then 1 else 0 := by
  by_cases h : k ∈ l ∧ p k
  · rw [if_pos h]
    exact List.count_eq_one_of_mem ((List.nodup_dedup l).filter p)
      (List.mem_filter.mpr ⟨List.mem_dedup.mpr h.1, h.2⟩)
  · rw [if_neg h]
    refine List.count_eq_zero.mpr fun hmem => ?_
    exact h ⟨List.mem_dedup.mp (List.mem_filter.mp hmem).1,
      (List.mem_filter.mp hmem).2⟩

/-- C2: for every pair of source and target rosters and every enrollment key
(person, section, role): exactly one add action is produced when the key is
present in the source and absent in the target, and none otherwise; exactly
one remove action is produced when the key is present in the target and
absent in the source, and none otherwise. -/
theorem computeDiff_complete_symmetric (source target : List EnrollKey)
    (k : EnrollKey) :
    (computeDiff source target).count (EnrollAction.add k) =
      (if k ∈ source ∧ k ∉ target then 1 else 0) ∧
    (computeDiff source target).count (EnrollAction.remove k) =
      (if k ∈ target ∧ k ∉ source then 1 else 0) := by
  have hadd : Function.Injective EnrollAction.add := fun a b h => by
    cases h; rfl
  have hrem : Function.Injective EnrollAction.remove := fun a b h => by
    cases h; rfl
  unfold computeDiff
  rw [List.count_append, List.count_append]
  constructor
  · have h₁ := List.count_map_of_injective
      (source.dedup.filter fun k => decide (k ∉ target)) EnrollAction.add hadd k
    have h₂ : ((target.dedup.filter fun k => decide (k ∉ source)).map
        EnrollAction.remove).count (EnrollAction.add k) = 0 :=
      List.count_eq_zero.mpr (by simp)
    rw [h₁, h₂, count_filter_dedup]
    simp
  · have h₁ := List.count_map_of_injective
      (target.dedup.filter fun k => decide (k ∉ source)) EnrollAction.remove hrem k
    have h₂ : ((source.dedup.filter fun k => decide (k ∉ target)).map
        EnrollAction.add).count (EnrollAction.remove k) = 0 :=
      List.count_eq_zero.mpr (by simp)
    rw [h₁, h₂, count_filter_dedup]
    simp

/-- Membership after folding a list of add actions over a roster: the roster
gains exactly the added keys. -/
theorem mem_applyActions_adds (ks : List EnrollKey) :
    ∀ (t : List EnrollKey) (x : EnrollKey),
      x ∈ applyActions (ks.map EnrollAction.add) t ↔ x ∈ t ∨ x ∈ ks := by
  induction ks with
  | nil => simp [applyActions]
  | cons k ks ih =>
    intro t x
    have step : applyActions ((k :: ks).map EnrollAction.add) t =
        applyActions (ks.map EnrollAction.add) (applyAction t (EnrollAction.add k)) := rfl
    rw [step, ih]
    by_cases hk : k ∈ t
    · simp only [applyAction, if_pos hk, List.mem_cons]
      constructor
      · rintro (h | h)
        · exact Or.inl h
        · exact Or.inr (Or.inr h)
      · rintro (h | rfl | h)
        · exact Or.inl h
        · exact Or.inl hk
        · exact Or.inr h
    · simp only [applyAction, if_neg hk, List.mem_cons]
      tauto

/-- Membership after folding a list of remove actions over a roster: the
roster loses exactly the removed keys. -/
theorem mem_applyActions_removes (ks : List EnrollKey) :
    ∀ (t : List EnrollKey) (x : EnrollKey),
      x ∈ applyActions (ks.map EnrollAction.remove) t ↔ x ∈ t ∧ x ∉ ks := by
  induction ks with
  | nil => simp [applyActions]
  | cons k ks ih =>
    intro t x
    have step : applyActions ((k :: ks).map EnrollAction.remove) t =
        applyActions (ks.map EnrollAction.remove) (applyAction t (EnrollAction.remove k)) := rfl
    rw [step, ih]
    simp only [applyAction, List.mem_filter, List.mem_cons, decide_eq_true_eq]
    tauto

/-- After one reconciliation run, the target roster contains exactly the
source roster's keys. -/
theorem mem_reconcileRun_roster (source target : List EnrollKey)
    (x : EnrollKey) :
    x ∈ (reconcileRun source target).2 ↔ x ∈ source := by
  have hsplit : (reconcileRun source target).2 =
      applyActions
        ((target.dedup.filter fun k => decide (k ∉ source)).map EnrollAction.remove)
        (applyActions
          ((source.dedup.filter fun k => decide (k ∉ target)).map EnrollAction.add)
          target) := by
    show applyActions (computeDiff source target) target = _
    unfold computeDiff applyActions
    rw [List.foldl_append]
  rw [hsplit, mem_applyActions_removes, mem_applyActions_adds]
  simp only [List.mem_filter, List.mem_dedup, decide_eq_true_eq]
  by_cases hs : x ∈ source <;> by_cases ht : x ∈ target <;> simp [hs, ht]

/-- C3: applying the actions of one reconciliation run to the target roster
makes the subsequent diff empty, so a second run over the unchanged source
and the corrected target produces an empty action list and a no-op report:
reapplying converges with no further side effects. -/
theorem reconcile_idempotent (source target : List EnrollKey) :
    computeDiff source (reconcileRun source target).2 = [] ∧
    (reconcileRun source (reconcileRun source target).2).1.added = [] ∧
    (reconcileRun source (reconcileRun source target).2).1.removed = [] := by
  have hdiff : computeDiff source (reconcileRun source target).2 = [] := by
    unfold computeDiff
    have h₁ : (source.dedup.filter
        fun k => decide (k ∉ (reconcileRun source target).2)) = [] := by
      rw [List.filter_eq_nil_iff]
      intro a ha
      simp only [decide_eq_true_eq, Decidable.not_not]
      exact (mem_reconcileRun_roster source target a).mpr (List.mem_dedup.mp ha)
    have h₂ : ((reconcileRun source target).2.dedup.filter
        fun k => decide (k ∉ source)) = [] := by
      rw [List.filter_eq_nil_iff]
      intro a ha
      simp only [decide_eq_true_eq, Decidable.not_not]
      exact (mem_reconcileRun_roster source target a).mp (List.mem_dedup.mp ha)
    rw [h₁, h₂]
    simp
  have hrun : ∀ t', computeDiff source t' = [] →
      (reconcileRun source t').1.added = [] ∧
      (reconcileRun source t').1.removed = [] := by
    intro t' h
    constructor <;> simp [reconcileRun, h]
  exact ⟨hdiff, (hrun _ hdiff).1, (hrun _ hdiff).2⟩

/-- C6: reconciliation over fixed source and target snapshots is a pure
function of the snapshots, so two runs produce identical reports and
identical action lists in the same order; moreover the order is fixed and
stable — every add action precedes every remove action, and no action
appears twice. -/
theorem reconcile_deterministic (source target : List EnrollKey) :
    reconcileRun source target = reconcileRun source target ∧
    (∃ adds removes : List EnrollKey, computeDiff source target =
        adds.map EnrollAction.add ++ removes.map EnrollAction.remove) ∧
    (computeDiff source target).Nodup := by
  refine ⟨rfl, ⟨source.dedup.filter fun k => decide (k ∉ target),
    target.dedup.filter fun k => decide (k ∉ source), rfl⟩, ?_⟩
  unfold computeDiff
  refine List.Nodup.append ?_ ?_ ?_
  · exact ((List.nodup_dedup source).filter _).map fun a b h => by cases h; rfl
  · exact ((List.nodup_dedup target).filter _).map fun a b h => by cases h; rfl
  · intro a ha hb
    rcases List.mem_map.mp ha with ⟨k, _, rfl⟩
    rcases List.mem_map.mp hb with ⟨k', _, h⟩
    exact EnrollAction.noConfusion h

/-- C8: the `[allCrns]` and `[sections]` substitutions enumerate the context's
sections sorted ascending by section number: each joins, over one and the same
reordering of the section list whose section numbers are ascending, the CRNs
respectively the section numbers. -/
theorem allCrns_sections_sorted_bySectionNumber (ctx : TemplateContext) :
    ∃ sorted : List CourseSection,
      sorted.Perm ctx.sections ∧
      (sorted.map (·.sectionNumber)).Sorted (· ≤ ·) ∧
      fnLibrary.allCrns ctx =
        some (String.intercalate ", " (sorted.map (·.crn))) ∧
      fnLibrary.sections ctx =
        some (String.intercalate ", " (sorted.map fun s => toString s.sectionNumber)) := by
  refine ⟨sortBySectionNumber ctx.sections,
    List.perm_insertionSort _ _, ?_, rfl, rfl⟩
  have h := List.sorted_insertionSort bySectionNumber ctx.sections
  rw [List.Sorted, List.pairwise_map]
  exact h

/-- Dropping a prefix can only shorten a list. -/
theorem length_dropWhile_le (p : Char → Bool) (l : List Char) :
    (l.dropWhile p).length ≤ l.length := by
  induction l with
  | nil => simp
  | cons c rest ih =>
    rw [List.dropWhile_cons]
    by_cases h : p c
    · rw [if_pos h]; exact Nat.le_succ_of_le ih
    · rw [if_neg h]

/-- `takeWhile` passes over a prefix whose members all satisfy the
predicate. -/
theorem takeWhile_append_all (p : Char → Bool) (xs ys : List Char)
    (h : ∀ x ∈ xs, p x = true) :
    (xs ++ ys).takeWhile p = xs ++ ys.takeWhile p := by
  induction xs with
  | nil => simp
  | cons a xs ih =>
    have ha : p a = true := h a (List.mem_cons_self a xs)
    simp only [List.cons_append, List.takeWhile_cons, ha, if_true]
    rw [ih fun x hx => h x (List.mem_cons_of_mem a hx)]

/-- `dropWhile` consumes a prefix whose members all satisfy the
predicate. -/
theorem dropWhile_append_all (p : Char → Bool) (xs ys : List Char)
    (h : ∀ x ∈ xs, p x = true) :
    (xs ++ ys).dropWhile p = ys.dropWhile p := by
  induction xs with
  | nil => simp
  | cons a xs ih =>
    have ha : p a = true := h a (List.mem_cons_self a xs)
    simp only [List.cons_append, List.dropWhile_cons, ha, if_true]
    exact ih fun x hx => h x (List.mem_cons_of_mem a hx)

/-- The template scan does not depend on the fuel bound, as long as the bound
covers the input length: every step consumes at least one character. -/
theorem scanAux_fuel_congr (lib : String → Option (Option String)) :
    ∀ fuel₁ fuel₂ : Nat, ∀ l : List Char,
      l.length ≤ fuel₁ → l.length ≤ fuel₂ →
      scanAux lib fuel₁ l = scanAux lib fuel₂ l := by
  intro fuel₁
  induction fuel₁ with
  | zero =>
    intro fuel₂ l h₁ _
    have hl : l = [] := List.length_eq_zero.mp (Nat.le_zero.mp h₁)
    subst hl
    cases fuel₂ <;> rfl
  | succ f ih =>
    intro fuel₂ l h₁ h₂
    cases l with
    | nil => cases fuel₂ <;> rfl
    | cons c rest =>
      cases fuel₂ with
      | zero => exact absurd h₂ (by simp)
      | succ g =>
        have hr₁ : rest.length ≤ f := by
          simpa using Nat.succ_le_succ_iff.mp (by simpa using h₁)
        have hr₂ : rest.length ≤ g := by
          simpa using Nat.succ_le_succ_iff.mp (by simpa using h₂)
        have hlen₃ :
            ((rest.dropWhile Char.isAlpha).dropWhile (fun b => b = ']')).length ≤
              rest.length :=
          le_trans (length_dropWhile_le _ _) (length_dropWhile_le _ _)
        simp only [scanAux]
        by_cases hc : c = '['
        · simp only [if_pos hc]
          by_cases hempty : rest.takeWhile Char.isAlpha = [] ∨
              (rest.dropWhile Char.isAlpha).takeWhile (fun b => b = ']') = []
          · simp only [if_pos hempty]
            rw [ih g rest hr₁ hr₂]
          · simp only [if_neg hempty]
            cases hlib : lib (String.mk (rest.takeWhile Char.isAlpha)) with
            | none =>
              simp only [hlib]
              rw [ih g _ (le_trans hlen₃ hr₁) (le_trans hlen₃ hr₂)]
            | some r =>
              cases r with
              | none => simp only [hlib]
              | some s =>
                simp only [hlib]
                rw [ih g _ (le_trans hlen₃ hr₁) (le_trans hlen₃ hr₂)]
        · simp only [if_neg hc]
          rw [ih g rest hr₁ hr₂]

/-- A character that cannot open a token passes through the scan
unchanged. -/
theorem scanTemplate_cons_plain (lib : String → Option (Option String))
    (c : Char) (l : List Char) (hc : c ≠ '[') :
    scanTemplate lib (c :: l) = (scanTemplate lib l).map (fun s => c :: s) := by
  show scanAux lib (l.length + 1) (c :: l) = _
  simp only [scanAux, if_neg hc]
  rfl

/-- A prefix free of `[` passes through the scan unchanged. -/
theorem scanTemplate_append_plain (lib : String → Option (Option String))
    (pre l : List Char) (hpre : '[' ∉ pre) :
    scanTemplate lib (pre ++ l) = (scanTemplate lib l).map (fun s => pre ++ s) := by
  induction pre with
  | nil =>
    simp only [List.nil_append]
    cases h : scanTemplate lib l <;> simp [h]
  | cons c pre ih =>
    have hc : c ≠ '[' := fun h => hpre (by simp [h])
    have hpre' : '[' ∉ pre := fun h => hpre (List.mem_cons_of_mem _ h)
    rw [List.cons_append, scanTemplate_cons_plain lib c (pre ++ l) hc, ih hpre']
    cases scanTemplate lib l <;> simp

/-- The scan's treatment of one well-delimited token `[name]`: the matched
text is kept verbatim when the name is not a library function, replaced by
the substitution function's value when it is, and the whole execution is
rejected when that function fails. -/
theorem scanTemplate_token (lib : String → Option (Option String))
    (name post : List Char) (hname : name ≠ [])
    (halpha : ∀ c ∈ name, c.isAlpha = true)
    (hpost : post.head? ≠ some ']') :
    scanTemplate lib ('[' :: name ++ ']' :: post) =
      match lib (String.mk name) with
      | none => (scanTemplate lib post).map (fun s => '[' :: name ++ ']' :: s)
      | some none => none
      | some (some r) => (scanTemplate lib post).map (fun s => r.data ++ s) := by
  have htake : (name ++ ']' :: post).takeWhile Char.isAlpha = name := by
    rw [takeWhile_append_all Char.isAlpha name (']' :: post) halpha,
      List.takeWhile_cons, if_neg (by decide)]
    simp
  have hdrop : (name ++ ']' :: post).dropWhile Char.isAlpha = ']' :: post := by
    rw [dropWhile_append_all Char.isAlpha name (']' :: post) halpha,
      List.dropWhile_cons, if_neg (by decide)]
  have htail : post.takeWhile (fun b => b = ']') = [] ∧
      post.dropWhile (fun b => b = ']') = post := by
    cases post with
    | nil => simp
    | cons c post' =>
      have hc : c ≠ ']' := fun h => hpost (by simp [h])
      constructor
      · rw [List.takeWhile_cons, if_neg (by simpa using hc)]
      · rw [List.dropWhile_cons, if_neg (by simpa using hc)]
  have htake2 : (']' :: post).takeWhile (fun b => b = ']') = [']'] := by
    rw [List.takeWhile_cons, if_pos (by decide), htail.1]
  have hdrop2 : (']' :: post).dropWhile (fun b => b = ']') = post := by
    rw [List.dropWhile_cons, if_pos (by decide), htail.2]
  have hfuel : post.length ≤ (name ++ ']' :: post).length := by
    simp
    omega
  have hcongr := scanAux_fuel_congr lib ((name ++ ']' :: post).length)
    post.length post hfuel le_rfl
  have hcond : (name = [] ∨ ([']'] : List Char) = []) = False := by
    simp [hname]
  show scanAux lib ((name ++ ']' :: post).length + 1) ('[' :: name ++ ']' :: post) = _
  simp only [scanAux, List.append_eq, if_true, htake, hdrop, htake2, hdrop2,
    hcond, if_false]
  cases hlib : lib (String.mk name) with
  | none =>
    have : lib { data := name } = none := hlib
    simp only [this, hcongr, scanTemplate]
    congr 1
    funext s
    simp
  | some r =>
    cases r with
    | none =>
      have : lib { data := name } = some none := hlib
      simp only [this]
    | some s =>
      have : lib { data := name } = some (some s) := hlib
      simp only [this, hcongr, scanTemplate]

/-- C9: `executeTemplate` keeps a well-delimited token `[Name]` verbatim in
the output when `Name` is not the name of a function of the substitution
library, and replaces it by that function's result when it is (rejecting the
execution when the function itself fails). -/
theorem executeTemplate_token_substitution
    (sanitize capital : String → String) (ctx : TemplateContext)
    (pre name post : List Char)
    (hpre : '[' ∉ pre) (hname : name ≠ [])
    (halpha : ∀ c ∈ name, c.isAlpha = true) (hpost : post.head? ≠ some ']') :
    executeTemplate sanitize capital ctx
        (String.mk (pre ++ ('[' :: name ++ ']' :: post))) =
      match fnLibraryLookup sanitize capital (String.mk name) with
      | none =>
          (executeTemplate sanitize capital ctx (String.mk post)).map
            (fun s => String.mk (pre ++ '[' :: name ++ ']' :: s.data))
      | some f =>
          match f ctx with
          | none => none
          | some r =>
              (executeTemplate sanitize capital ctx (String.mk post)).map
                (fun s => String.mk (pre ++ r.data ++ s.data)) := by
  unfold executeTemplate
  show (scanTemplate _ (pre ++ ('[' :: name ++ ']' :: post))).map String.mk = _
  set lib := fun n => (fnLibraryLookup sanitize capital n).map (fun f => f ctx)
    with hlibdef
  have e1 : scanTemplate lib (pre ++ ('[' :: name ++ ']' :: post)) =
      (scanTemplate lib ('[' :: name ++ ']' :: post)).map (fun s => pre ++ s) :=
    scanTemplate_append_plain lib pre ('[' :: name ++ ']' :: post) hpre
  have e2 := scanTemplate_token lib name post hname halpha hpost
  rw [e1, e2]
  cases hf : fnLibraryLookup sanitize capital (String.mk name) with
  | none =>
    have hl : lib (String.mk name) = none := by rw [hlibdef]; simp [hf]
    simp only [hl, hf]
    cases hscan : scanTemplate lib post <;> simp [hscan]
  | some f =>
    have hl : lib (String.mk name) = some (f ctx) := by rw [hlibdef]; simp [hf]
    simp only [hl, hf]
    cases hfc : f ctx with
    | none => simp
    | some r =>
      simp only []
      cases hscan : scanTemplate lib post <;> simp [hscan]

/-- Witness for C9 at a concrete template `x[parentCrn]y`, whose token names
a library function, over the demo context. -/
theorem executeTemplate_token_substitution_witness :
    ('[' ∉ (['x'] : List Char)) ∧
    (("parentCrn".data : List Char) ≠ []) ∧
    (∀ c ∈ ("parentCrn".data : List Char), c.isAlpha = true) ∧
    ((['y'] : List Char).head? ≠ some ']') ∧
    executeTemplate id id demoContext
        (String.mk (['x'] ++ ('[' :: "parentCrn".data ++ ']' :: ['y']))) =
      (match fnLibraryLookup id id (String.mk "parentCrn".data) with
      | none =>
          (executeTemplate id id demoContext (String.mk ['y'])).map
            (fun s => String.mk (['x'] ++ '[' :: "parentCrn".data ++ ']' :: s.data))
      | some f =>
          match f demoContext with
          | none => none
          | some r =>
              (executeTemplate id id demoContext (String.mk ['y'])).map
                (fun s => String.mk (['x'] ++ r.data ++ s.data))) :=
  ⟨by decide, by decide, by decide, by decide,
    executeTemplate_token_substitution id id demoContext ['x'] "parentCrn".data
      ['y'] (by decide) (by decide) (by decide) (by decide)⟩

/-- C10: a course name generated from a template containing the
`[instLastName]` token requires a non-empty instructor list: with no
instructor fetched for the parent term and CRN the substitution's element-0
access fails and the generation produces no name, so generation succeeds only
when the instructor list is non-empty — and under that precondition the
failing branch of the substitution is unreachable. -/
theorem generateCourseName_instLastName_requires_instructor
    (sanitize capital : String → String)
    (instructors : List Person) (parentCourse : Course)
    (parentTerm parentCrn : String) (sections : List CourseSection)
    (pre post : List Char) (hpre : '[' ∉ pre) (hpost : post.head? ≠ some ']') :
    (instructors = [] →
      generateCourseName sanitize capital instructors parentCourse parentTerm
        parentCrn sections
        (String.mk (pre ++ ('[' :: "instLastName".data ++ ']' :: post))) = none) ∧
    ((generateCourseName sanitize capital instructors parentCourse parentTerm
        parentCrn sections
        (String.mk (pre ++ ('[' :: "instLastName".data ++ ']' :: post)))).isSome →
      instructors ≠ []) ∧
    (instructors ≠ [] →
      (fnLibrary.instLastName
        ⟨instructors, parentCourse, parentTerm, parentCrn, sections⟩).isSome) := by
  have hname : ("instLastName".data : List Char) ≠ [] := by decide
  have halpha : ∀ c ∈ ("instLastName".data : List Char), c.isAlpha = true := by
    decide
  have hmain := executeTemplate_token_substitution sanitize capital
    ⟨instructors, parentCourse, parentTerm, parentCrn, sections⟩
    pre "instLastName".data post hpre hname halpha hpost
  have hlookup : fnLibraryLookup sanitize capital (String.mk "instLastName".data)
      = some fnLibrary.instLastName := rfl
  rw [hlookup] at hmain
  have h1 : instructors = [] →
      generateCourseName sanitize capital instructors parentCourse parentTerm
        parentCrn sections
        (String.mk (pre ++ ('[' :: "instLastName".data ++ ']' :: post))) = none := by
    intro hempty
    have hfail : fnLibrary.instLastName
        ⟨instructors, parentCourse, parentTerm, parentCrn, sections⟩ = none := by
      simp [fnLibrary.instLastName, hempty]
    unfold generateCourseName
    rw [hmain]
    simp only [hfail]
  refine ⟨h1, ?_, ?_⟩
  · intro hsome heq
    rw [h1 heq] at hsome
    simp at hsome
  · intro hne
    cases instructors with
    | nil => exact absurd rfl hne
    | cons p rest => simp [fnLibrary.instLastName]

/-- Witness for C10 at the concrete template `x[instLastName]y` with an empty
instructor list. -/
theorem generateCourseName_instLastName_witness :
    ('[' ∉ (['x'] : List Char)) ∧ ((['y'] : List Char).head? ≠ some ']') ∧
    ((([] : List Person) = [] →
      generateCourseName id id [] demoCourse "202541" "12345" []
        (String.mk (['x'] ++ ('[' :: "instLastName".data ++ ']' :: ['y']))) = none) ∧
    ((generateCourseName id id [] demoCourse "202541" "12345" []
        (String.mk (['x'] ++ ('[' :: "instLastName".data ++ ']' :: ['y'])))).isSome →
      ([] : List Person) ≠ []) ∧
    (([] : List Person) ≠ [] →
      (fnLibrary.instLastName ⟨[], demoCourse, "202541", "12345", []⟩).isSome)) :=
  ⟨by decide, by decide,
    generateCourseName_instLastName_requires_instructor id id [] demoCourse
      "202541" "12345" [] ['x'] ['y'] (by decide) (by decide)⟩

end CanvasEventBroker
